import Mathlib

/-!
Verification of the CONIKS audit-log subsystem (`protocol/auditlog/auditlog.go`)
against its natural-language specification.

The audit log and its operations (`InitHistory`, `AuditId`, `Audit`,
`insertRange`, `updateVerifiedSTR`, `GetObservedSTRs`) are translated directly
from the Go source.  The collaborating packages (`protocol`, `auditor`,
`client`) are not part of the visible source slice, so their pieces
(`DirSTR`, `Response`, `AudState`, `AuditDirectory`, `ComputeDirectoryIdentity`,
`CheckEquivocation`) are modelled from the specification, as marked on each
definition.  Machine epochs (Go `uint64`) are modelled as `Nat`; Go pointers
(`*DirSTR`, possibly nil) as `Option DirSTR`; the opaque cryptographic
primitives as an explicit `Crypto` record of functions.
-/

/-- Modelled from the spec: a Snapshot (signed tree root, Go `protocol.DirSTR`)
per spec section 3: epoch, root hash, hash of the previous snapshot, and the
directory's signature over the canonical encoding.  Digests and signatures are
opaque values, modelled as `Nat`. -/
structure DirSTR where
  epoch : Nat
  rootHash : Nat
  prevSnapshotHash : Nat
  signature : Nat
deriving DecidableEq

/-- The opaque cryptographic collaborators of spec section 6: the hash of a
snapshot's canonical encoding, the hash used for the directory identity, and
signature verification under a public key (public keys modelled as `Nat`). -/
structure Crypto where
  hashSTR : DirSTR → Nat
  hashSig : Nat → Nat
  verifySig : Nat → DirSTR → Bool

/-- The status / error codes surfaced by the audit log, per spec section 6 and
the Go error values (`ErrMalformedMessage`, `ReqUnknownDirectory`,
`ErrAuditLog` for AlreadyExists, the ad-hoc unknown-id error of `AuditId`, the
chain-violation errors of the auditor, and equivocation detection). -/
inductive ErrorCode where
  | reqSuccess
  | errMalformedMessage
  | reqUnknownDirectory
  | errAuditLog
  | errInvalidChain
  | errUnknownId
  | errEquivocation
deriving DecidableEq

/-- Modelled from the spec: a `protocol.Response` carrying an error code and an
STR history range (Go `[]*DirSTR`; a nil pointer is `none`). -/
structure Response where
  error : ErrorCode
  strs : List (Option DirSTR)
deriving DecidableEq

/-- Go `protocol.NewErrorResponse`: an error response carries no snapshots. -/
def NewErrorResponse (e : ErrorCode) : Response := ⟨e, []⟩

/-- Go `protocol.NewSTRHistoryRange`: a successful range response. -/
def NewSTRHistoryRange (strs : List (Option DirSTR)) : Response :=
  ⟨ErrorCode.reqSuccess, strs⟩

/-- Modelled from the spec: message validation of an STR-range response
(`protocol.Response.Validate`, not in the visible slice).  Per spec section 7,
malformed ranges (bad shape, empty ranges, nil entries) are rejected before any
state is touched. -/
def Response.validate (m : Response) : Bool :=
  m.error == ErrorCode.reqSuccess && !m.strs.isEmpty && m.strs.all Option.isSome

/-- Modelled from the spec: the auditor state `auditor.AudState` of spec
section 3 — the pinned public key and the latest verified snapshot. -/
structure AudState where
  signKey : Nat
  verifiedSTR : DirSTR
deriving DecidableEq

/-- Modelled from the spec: `auditor.New` pins the public key and the initial
snapshot (trust-on-first-use). -/
def AudState.new (signKey : Nat) (initSTR : DirSTR) : AudState := ⟨signKey, initSTR⟩

/-- Modelled from the spec: `AudState.Update` replaces the latest verified
snapshot after a successful chain extension. -/
def AudState.update (a : AudState) (s : DirSTR) : AudState := ⟨a.signKey, s⟩

/-- Modelled from the spec: `auditor.ComputeDirectoryIdentity` — the directory
identity is the hash of the initial STR's signature (per the comment in
`auditlog.go` and spec section 3). -/
def ComputeDirectoryIdentity (c : Crypto) (s : DirSTR) : Nat :=
  c.hashSig s.signature

/-- Modelled from the spec, section 4.1: single-candidate chain admission
against a non-empty state — epoch succession, prev-hash linkage, and signature
verification under the pinned key. -/
def checkSTR (c : Crypto) (a : AudState) (cand : DirSTR) : Bool :=
  (cand.epoch == a.verifiedSTR.epoch + 1) &&
  (cand.prevSnapshotHash == c.hashSTR a.verifiedSTR) &&
  c.verifySig a.signKey cand

/-- Modelled from the spec, section 4.1: `AudState.AuditDirectory` validates a
range of candidate snapshots sequentially from the first; a nil entry or any
failing candidate fails the whole range. -/
def AuditDirectory (c : Crypto) (a : AudState) : List (Option DirSTR) → Bool
  | [] => true
  | none :: _ => false
  | some s :: rest => checkSTR c a s && AuditDirectory c (a.update s) rest

/-- One per-directory history record of the audit log
(Go `directoryHistory`): the embedded auditor state, the directory's address,
and the epoch-indexed snapshot store (Go `map[uint64]*DirSTR`). -/
structure directoryHistory where
  aud : AudState
  addr : String
  snapshots : Nat → Option DirSTR

/-- Go `directoryHistory.updateVerifiedSTR`: update the auditor state and store
the snapshot under its epoch. -/
def updateVerifiedSTR (h : directoryHistory) (s : DirSTR) : directoryHistory :=
  { aud := h.aud.update s
    addr := h.addr
    snapshots := fun e => if e = s.epoch then some s else h.snapshots e }

/-- Go `directoryHistory.insertRange`: store each snapshot of the range in
order (assumes the range has been audited by the caller). -/
def insertRange (h : directoryHistory) : List DirSTR → directoryHistory
  | [] => h
  | s :: rest => insertRange (updateVerifiedSTR h s) rest

/-- Go `newDirectoryHistory`: fresh record pinning the signing key with the
initial STR, then recording it as the first verified snapshot. -/
def newDirectoryHistory (addr : String) (signKey : Nat) (initSTR : DirSTR) :
    directoryHistory :=
  updateVerifiedSTR ⟨AudState.new signKey initSTR, addr, fun _ => none⟩ initSTR

/-- Go `directoryHistory.Audit`: validate the message, audit the STR range
against the current state, and only then insert the range.  Failure leaves the
record untouched. -/
def Audit (c : Crypto) (h : directoryHistory) (msg : Response) :
    Except ErrorCode directoryHistory :=
  if !msg.validate then Except.error ErrorCode.errMalformedMessage
  else if !AuditDirectory c h.aud msg.strs then Except.error ErrorCode.errInvalidChain
  else Except.ok (insertRange h msg.strs.reduceOption)

/-- Go `ConiksAuditLog`: histories indexed by directory identity (the hash of
the initial STR's signature). -/
def ConiksAuditLog := Nat → Option directoryHistory

/-- Go `ConiksAuditLog.set`. -/
def logSet (l : ConiksAuditLog) (id : Nat) (h : directoryHistory) : ConiksAuditLog :=
  fun k => if k = id then some h else l k

/-- Go `auditlog.New`: the empty audit log. -/
def emptyLog : ConiksAuditLog := fun _ => none

/-- Go `ConiksAuditLog.AuditId`: look up the record by identity (a bespoke
error, distinct from malformed input, when absent), audit the message against
it, and commit the updated record only on success. -/
def AuditId (c : Crypto) (l : ConiksAuditLog) (id : Nat) (msg : Response) :
    ConiksAuditLog × Option ErrorCode :=
  match l id with
  | none => (l, some ErrorCode.errUnknownId)
  | some h =>
    match Audit c h msg with
    | Except.error e => (l, some e)
    | Except.ok h2 => (logSet l id h2, none)

/-- Go `ConiksAuditLog.InitHistory`: requires a non-empty snapshot list whose
head has epoch 0; refuses to re-initialise a known identity; otherwise builds a
fresh record from the head and inserts the tail via `insertRange` (the source
does not re-run chain validation on the tail — see its TODO comment). -/
def InitHistory (c : Crypto) (l : ConiksAuditLog) (addr : String) (signKey : Nat)
    (snaps : List DirSTR) : ConiksAuditLog × Option ErrorCode :=
  match snaps with
  | [] => (l, some ErrorCode.errMalformedMessage)
  | s0 :: rest =>
    if s0.epoch ≠ 0 then (l, some ErrorCode.errMalformedMessage)
    else
      match l (ComputeDirectoryIdentity c s0) with
      | some _ => (l, some ErrorCode.errAuditLog)
      | none =>
        (logSet l (ComputeDirectoryIdentity c s0)
          (insertRange (newDirectoryHistory addr signKey s0) rest), none)

/-- Go `protocol.AuditingRequest`. -/
structure AuditingRequest where
  DirInitSTRHash : Nat
  StartEpoch : Nat
  EndEpoch : Nat
deriving DecidableEq

/-- Go `ConiksAuditLog.GetObservedSTRs`: unknown identity yields
`ReqUnknownDirectory`; a range reaching beyond the latest verified epoch or
with start above end yields `ErrMalformedMessage`; otherwise the stored
snapshots for `[StartEpoch, EndEpoch]` are collected in order.  The method only
reads the log, so the returned log is the input log on every path. -/
def GetObservedSTRs (l : ConiksAuditLog) (req : AuditingRequest) :
    ConiksAuditLog × Response :=
  match l req.DirInitSTRHash with
  | none => (l, NewErrorResponse ErrorCode.reqUnknownDirectory)
  | some h =>
    if req.EndEpoch > h.aud.verifiedSTR.epoch ∨ req.StartEpoch > req.EndEpoch
    then (l, NewErrorResponse ErrorCode.errMalformedMessage)
    else (l, NewSTRHistoryRange
      ((List.range (req.EndEpoch + 1 - req.StartEpoch)).map
        (fun i => h.snapshots (req.StartEpoch + i))))

/-- Modelled from the spec: the client-side `client.ConsistencyChecks` state of
spec section 4.3 — the client's own auditor state plus its own admitted
history, epoch-indexed. -/
structure ConsistencyChecks where
  aud : AudState
  history : Nat → Option DirSTR

/-- Modelled from the spec, section 4.3: `CheckEquivocation` compares, for
every epoch present in both the client's own admitted history and the
auditor's returned range, the snapshot contents; any differing overlapping
epoch signals equivocation, and no overlap (or identical overlap) succeeds. -/
def CheckEquivocation (cc : ConsistencyChecks) (msg : Response) : Option ErrorCode :=
  if msg.strs.any (fun os =>
      match os with
      | none => false
      | some s =>
        match cc.history s.epoch with
        | none => false
        | some mine => decide (mine ≠ s))
  then some ErrorCode.errEquivocation
  else none

/-- The snapshot stored for directory `id` at epoch `e`, if any. -/
def snapAt (l : ConiksAuditLog) (id : Nat) (e : Nat) : Option DirSTR :=
  match l id with
  | none => none
  | some h => h.snapshots e

/-- The latest verified epoch on record for directory `id`, if any. -/
def latestEpochAt (l : ConiksAuditLog) (id : Nat) : Option Nat :=
  (l id).map (fun h => h.aud.verifiedSTR.epoch)

/-- Logs reachable by any sequence of `InitHistory` and `AuditId` calls from
the empty log. -/
inductive Reachable (c : Crypto) : ConiksAuditLog → Prop where
  | empty : Reachable c emptyLog
  | init (l : ConiksAuditLog) (addr : String) (k : Nat) (snaps : List DirSTR) :
      Reachable c l → Reachable c (InitHistory c l addr k snaps).1
  | audit (l : ConiksAuditLog) (id : Nat) (msg : Response) :
      Reachable c l → Reachable c (AuditId c l id msg).1

/-- The list `snaps` carries consecutive epochs starting at `n`. -/
def consecFrom (n : Nat) : List DirSTR → Bool
  | [] => true
  | s :: rest => (s.epoch == n) && consecFrom (n + 1) rest

/-- Logs reachable by `InitHistory` and `AuditId` calls where every
`InitHistory` input carries consecutive epochs from 0 (the chain-contiguous
snapshot lists a persisted auditor replays at startup). -/
inductive ReachableGood (c : Crypto) : ConiksAuditLog → Prop where
  | empty : ReachableGood c emptyLog
  | init (l : ConiksAuditLog) (addr : String) (k : Nat) (snaps : List DirSTR) :
      ReachableGood c l → consecFrom 0 snaps = true →
      ReachableGood c (InitHistory c l addr k snaps).1
  | audit (l : ConiksAuditLog) (id : Nat) (msg : Response) :
      ReachableGood c l → ReachableGood c (AuditId c l id msg).1

/-- The per-record store invariant: the snapshots map holds exactly the epochs
`0 .. verifiedSTR.epoch`, and the entry at the top epoch is the latest verified
snapshot itself. -/
def goodHist (h : directoryHistory) : Prop :=
  (∀ e, (h.snapshots e).isSome = true ↔ e ≤ h.aud.verifiedSTR.epoch) ∧
  h.snapshots h.aud.verifiedSTR.epoch = some h.aud.verifiedSTR

/-!  Concrete fixtures used by witnesses and counterexamples.  Under `cx` every
signature verifies, a snapshot hashes to 0, and the directory identity is the
initial STR's signature itself. -/

/-- A concrete crypto instance for witnesses: every signature verifies, every
snapshot hashes to 0, and the identity hash is the identity function. -/
def cx : Crypto := ⟨fun _ => 0, fun s => s, fun _ _ => true⟩

/-- The epoch-0 snapshot of the test directory. -/
def str0 : DirSTR := ⟨0, 0, 0, 0⟩

/-- A chain-valid epoch-1 successor of `str0` under `cx`. -/
def str1 : DirSTR := ⟨1, 10, 0, 1⟩

/-- A snapshot with epoch 5, not a chain-valid successor of `str0`. -/
def str5 : DirSTR := ⟨5, 50, 0, 55⟩

/-- A divergent epoch-1 snapshot (a fork of `str1`). -/
def strB : DirSTR := ⟨1, 99, 0, 2⟩

/-- The record obtained by pinning `str0` for the test directory. -/
def hist2 : directoryHistory := newDirectoryHistory "addr-of-test-dir" 7 str0

/-- A log holding exactly the test directory initialised from `str0`. -/
def l2 : ConiksAuditLog := (InitHistory cx emptyLog "addr-of-test-dir" 7 [str0]).1

/-- The test directory's identity under `cx`. -/
def id0 : Nat := ComputeDirectoryIdentity cx str0

/-- A well-formed response whose range fails chain admission against `hist2`
(epoch 5 is not the successor of epoch 0). -/
def msgBad : Response := ⟨ErrorCode.reqSuccess, [some str5]⟩

/-- The request for the test directory's epoch-0 snapshot. -/
def req00 : AuditingRequest := ⟨id0, 0, 0⟩

/-- The log obtained by initialising the test directory from the gapped
snapshot list `[str0, str5]` — accepted by `InitHistory` although epoch 5 is
not chain-valid after epoch 0. -/
def lbad : ConiksAuditLog :=
  (InitHistory cx emptyLog "addr-of-test-dir" 7 [str0, str5]).1

/-- C7: `InitHistory` fails with MalformedMessage exactly when the snapshot
list is empty or its head does not have epoch 0, and in that case the audit
log is unchanged. -/
theorem initHistory_malformed (c : Crypto) (l : ConiksAuditLog) (addr : String)
    (k : Nat) (snaps : List DirSTR) :
    ((InitHistory c l addr k snaps).2 = some ErrorCode.errMalformedMessage ↔
      snaps.head?.map DirSTR.epoch ≠ some 0) ∧
    ((InitHistory c l addr k snaps).2 = some ErrorCode.errMalformedMessage →
      (InitHistory c l addr k snaps).1 = l) := by
  cases snaps with
  | nil => simp [InitHistory]
  | cons s0 rest =>
    by_cases h0 : s0.epoch = 0
    · cases hl : l (ComputeDirectoryIdentity c s0) <;>
        simp [InitHistory, h0, hl]
    · simp [InitHistory, h0]

/-- C8: a well-formed `InitHistory` call whose directory identity is already
in the log fails with AlreadyExists (`ErrAuditLog`) and leaves the log
unchanged. -/
theorem initHistory_already_exists (c : Crypto) (l : ConiksAuditLog)
    (addr : String) (k : Nat) (s0 : DirSTR) (rest : List DirSTR)
    (h0 : s0.epoch = 0)
    (hk : (l (ComputeDirectoryIdentity c s0)).isSome = true) :
    (InitHistory c l addr k (s0 :: rest)).2 = some ErrorCode.errAuditLog ∧
    (InitHistory c l addr k (s0 :: rest)).1 = l := by
  cases hl : l (ComputeDirectoryIdentity c s0) with
  | none => rw [hl] at hk; simp at hk
  | some h => simp [InitHistory, h0, hl]

/-- C8 witness: re-initialising the already-initialised test directory fails
with AlreadyExists and leaves the log unchanged. -/
theorem initHistory_already_exists_wit :
    (InitHistory cx l2 "addr-of-test-dir" 7 [str0]).2 = some ErrorCode.errAuditLog ∧
    (InitHistory cx l2 "addr-of-test-dir" 7 [str0]).1 = l2 :=
  initHistory_already_exists cx l2 "addr-of-test-dir" 7 str0 [] (by decide) (by decide)

/-- C9: `AuditId` on an identity absent from the log fails with the
unknown-identity error, distinct from the malformed-input error, and leaves
the log unchanged. -/
theorem auditId_unknown_directory (c : Crypto) (l : ConiksAuditLog) (id : Nat)
    (msg : Response) (hk : l id = none) :
    (AuditId c l id msg).2 = some ErrorCode.errUnknownId ∧
    (AuditId c l id msg).1 = l ∧
    ErrorCode.errUnknownId ≠ ErrorCode.errMalformedMessage := by
  refine ⟨?_, ?_, by decide⟩ <;> simp [AuditId, hk]

/-- C9 witness: the empty log knows no directory, so `AuditId` fails with the
unknown-identity error and leaves the log empty. -/
theorem auditId_unknown_directory_wit :
    (AuditId cx emptyLog 3 (NewSTRHistoryRange [some str1])).2 =
      some ErrorCode.errUnknownId ∧
    (AuditId cx emptyLog 3 (NewSTRHistoryRange [some str1])).1 = emptyLog ∧
    ErrorCode.errUnknownId ≠ ErrorCode.errMalformedMessage :=
  auditId_unknown_directory cx emptyLog 3 (NewSTRHistoryRange [some str1]) rfl

/-- C10: `GetObservedSTRs` never mutates the audit log: on every path the
returned log is the input log. -/
theorem getObservedSTRs_pure_read (l : ConiksAuditLog) (req : AuditingRequest) :
    (GetObservedSTRs l req).1 = l := by
  unfold GetObservedSTRs
  cases l req.DirInitSTRHash with
  | none => rfl
  | some h =>
    by_cases hc : req.EndEpoch > h.aud.verifiedSTR.epoch ∨ req.StartEpoch > req.EndEpoch <;>
      simp [hc]

/-- C5: `GetObservedSTRs` answers UnknownDirectory exactly for identities
absent from the log, and MalformedMessage exactly when the identity is present
but the request has start above end or end beyond the latest verified
epoch. -/
theorem getObservedSTRs_errors (l : ConiksAuditLog) (req : AuditingRequest) :
    ((GetObservedSTRs l req).2 = NewErrorResponse ErrorCode.reqUnknownDirectory ↔
      l req.DirInitSTRHash = none) ∧
    ((GetObservedSTRs l req).2 = NewErrorResponse ErrorCode.errMalformedMessage ↔
      ∃ n, latestEpochAt l req.DirInitSTRHash = some n ∧
        (req.StartEpoch > req.EndEpoch ∨ req.EndEpoch > n)) := by
  unfold GetObservedSTRs latestEpochAt
  cases hl : l req.DirInitSTRHash with
  | none => simp [NewErrorResponse]
  | some h =>
    by_cases hc : req.EndEpoch > h.aud.verifiedSTR.epoch ∨ req.StartEpoch > req.EndEpoch
    · simp only [hc, if_pos]
      constructor
      · simp [NewErrorResponse]
      · constructor
        · intro _
          exact ⟨h.aud.verifiedSTR.epoch, rfl, hc.symm⟩
        · intro _
          trivial
    · simp only [hc, if_neg, not_false_iff]
      constructor
      · simp [NewErrorResponse, NewSTRHistoryRange]
      · constructor
        · intro hcontra
          simp [NewErrorResponse, NewSTRHistoryRange] at hcontra
        · rintro ⟨n, hn, hdisj⟩
          injection hn with hn
          exact absurd hdisj.symm (hn ▸ hc)

/-- The function `insertRange` never changes the pinned signing key. -/
theorem insertRange_signKey (snaps : List DirSTR) : ∀ (h : directoryHistory),
    (insertRange h snaps).aud.signKey = h.aud.signKey := by
  induction snaps with
  | nil => intro h; rfl
  | cons s rest ih => intro h; exact (ih (updateVerifiedSTR h s)).trans rfl

/-- C1 counterexample: `InitHistory` accepts the gapped list `[str0, str5]`
and stores `str5`, although `str5` fails the single-candidate chain-admission
check against the state that has just pinned `str0` — so snapshots that are
not chain-valid do enter the stored history. -/
theorem initHistory_skips_validation_cex :
    (InitHistory cx emptyLog "addr-of-test-dir" 7 [str0, str5]).2 = none ∧
    snapAt lbad id0 5 = some str5 ∧
    checkSTR cx (AudState.new 7 str0) str5 = false := by
  refine ⟨rfl, rfl, rfl⟩

/-- C1 (amended): a well-formed `InitHistory` call on a fresh identity
succeeds and stores the record built by pinning the key with `snaps[0]` and
then inserting every snapshot of `snaps[1:]` directly — for an arbitrary tail,
chain-valid or not, since the source does not re-run chain validation on it. -/
theorem initHistory_amended (c : Crypto) (l : ConiksAuditLog) (addr : String)
    (k : Nat) (s0 : DirSTR) (rest : List DirSTR) (h0 : s0.epoch = 0)
    (hfree : l (ComputeDirectoryIdentity c s0) = none) :
    (InitHistory c l addr k (s0 :: rest)).2 = none ∧
    (InitHistory c l addr k (s0 :: rest)).1 (ComputeDirectoryIdentity c s0) =
      some (insertRange (newDirectoryHistory addr k s0) rest) ∧
    (insertRange (newDirectoryHistory addr k s0) rest).aud.signKey = k := by
  refine ⟨?_, ?_, (insertRange_signKey rest (newDirectoryHistory addr k s0)).trans rfl⟩ <;>
    simp [InitHistory, h0, hfree, logSet]

/-- C1 witness: initialising the test directory from `[str0, str1]` succeeds
and stores the pinned record extended with `str1`. -/
theorem initHistory_amended_wit :
    (InitHistory cx emptyLog "addr-of-test-dir" 7 [str0, str1]).2 = none ∧
    (InitHistory cx emptyLog "addr-of-test-dir" 7 [str0, str1]).1
        (ComputeDirectoryIdentity cx str0) =
      some (insertRange (newDirectoryHistory "addr-of-test-dir" 7 str0) [str1]) ∧
    (insertRange (newDirectoryHistory "addr-of-test-dir" 7 str0) [str1]).aud.signKey = 7 :=
  initHistory_amended cx emptyLog "addr-of-test-dir" 7 str0 [str1] (by decide) rfl

/-- C2: an `AuditId` call on a known directory whose range fails message
validation or chain admission reports an error and leaves the log — hence
every stored snapshots map and its highest epoch — exactly as before. -/
theorem auditId_all_or_nothing (c : Crypto) (l : ConiksAuditLog) (id : Nat)
    (msg : Response) (h : directoryHistory) (hh : l id = some h)
    (hfail : msg.validate = false ∨ AuditDirectory c h.aud msg.strs = false) :
    (AuditId c l id msg).2 ≠ none ∧ (AuditId c l id msg).1 = l := by
  unfold AuditId
  rw [hh]
  unfold Audit
  rcases hfail with hv | ha
  · simp [hv]
  · cases hvv : msg.validate <;> simp [hvv, ha]

/-- C2 witness: auditing the chain-invalid range `[str5]` against the
initialised test directory fails and leaves the log unchanged. -/
theorem auditId_all_or_nothing_wit :
    l2 id0 = some hist2 ∧
    AuditDirectory cx hist2.aud msgBad.strs = false ∧
    (AuditId cx l2 id0 msgBad).2 ≠ none ∧
    (AuditId cx l2 id0 msgBad).1 = l2 := by
  have h := auditId_all_or_nothing cx l2 id0 msgBad hist2 rfl (Or.inr (by decide))
  exact ⟨rfl, by decide, h.1, h.2⟩

/-- The overlap predicate evaluated by `CheckEquivocation` on one response
entry: the entry holds a snapshot whose epoch the client also admitted, with
different content. -/
theorem checkEquivocation_any (cc : ConsistencyChecks) (msg : Response) :
    (msg.strs.any (fun os =>
      match os with
      | none => false
      | some s =>
        match cc.history s.epoch with
        | none => false
        | some mine => decide (mine ≠ s)) = true) ↔
    ∃ s m, some s ∈ msg.strs ∧ cc.history s.epoch = some m ∧ m ≠ s := by
  rw [List.any_eq_true]
  constructor
  · rintro ⟨os, hos, hpred⟩
    cases os with
    | none => simp at hpred
    | some s =>
      have hpred2 : (match cc.history s.epoch with
          | none => false
          | some mine => decide (mine ≠ s)) = true := hpred
      cases hh : cc.history s.epoch with
      | none => rw [hh] at hpred2; simp at hpred2
      | some m =>
        rw [hh] at hpred2
        exact ⟨s, m, hos, hh, of_decide_eq_true hpred2⟩
  · rintro ⟨s, m, hs, hm, hne⟩
    exact ⟨some s, hs, by simp [hm, hne]⟩

/-- C4: `CheckEquivocation` signals EquivocationDetected exactly when some
snapshot of the auditor's returned range carries an epoch the client also
admitted with different content, and succeeds exactly when every overlapping
epoch is byte-identical — in particular when the overlap is empty or only
partial. -/
theorem checkEquivocation_correct (cc : ConsistencyChecks) (msg : Response) :
    (CheckEquivocation cc msg = some ErrorCode.errEquivocation ↔
      ∃ s m, some s ∈ msg.strs ∧ cc.history s.epoch = some m ∧ m ≠ s) ∧
    (CheckEquivocation cc msg = none ↔
      ∀ s m, some s ∈ msg.strs → cc.history s.epoch = some m → m = s) := by
  unfold CheckEquivocation
  by_cases hany : (msg.strs.any (fun os =>
      match os with
      | none => false
      | some s =>
        match cc.history s.epoch with
        | none => false
        | some mine => decide (mine ≠ s)) = true)
  · rw [if_pos hany]
    constructor
    · exact iff_of_true rfl ((checkEquivocation_any cc msg).mp hany)
    · refine iff_of_false (by simp) ?_
      intro hall
      obtain ⟨s, m, hs, hm, hne⟩ := (checkEquivocation_any cc msg).mp hany
      exact hne (hall s m hs hm)
  · rw [if_neg hany]
    constructor
    · refine iff_of_false (by simp) ?_
      intro hex
      exact hany ((checkEquivocation_any cc msg).mpr hex)
    · refine iff_of_true rfl ?_
      intro s m hs hm
      by_contra hne
      exact hany ((checkEquivocation_any cc msg).mpr ⟨s, m, hs, hm, hne⟩)

/-- Applying `updateVerifiedSTR` with the successor epoch preserves the store
invariant. -/
theorem goodHist_update (h : directoryHistory) (s : DirSTR)
    (hg : goodHist h) (he : s.epoch = h.aud.verifiedSTR.epoch + 1) :
    goodHist (updateVerifiedSTR h s) := by
  obtain ⟨hall, _⟩ := hg
  constructor
  · intro e
    show (if e = s.epoch then some s else h.snapshots e).isSome = true ↔ e ≤ s.epoch
    by_cases hes : e = s.epoch
    · simp [hes]
    · rw [if_neg hes, hall e]
      omega
  · show (if s.epoch = s.epoch then some s else h.snapshots s.epoch) = some s
    rw [if_pos rfl]

/-- A fresh record built from an epoch-0 snapshot satisfies the store
invariant. -/
theorem goodHist_new (addr : String) (k : Nat) (s0 : DirSTR)
    (h0 : s0.epoch = 0) : goodHist (newDirectoryHistory addr k s0) := by
  constructor
  · intro e
    show (if e = s0.epoch then some s0 else none).isSome = true ↔ e ≤ s0.epoch
    by_cases he : e = s0.epoch
    · simp [he]
    · rw [if_neg he]
      simp only [Option.isSome_none, Bool.false_eq_true, false_iff]
      omega
  · show (if s0.epoch = s0.epoch then some s0 else none) = some s0
    rw [if_pos rfl]

/-- Inserting a range of consecutive epochs continuing the verified latest
preserves the store invariant. -/
theorem goodHist_insertRange (snaps : List DirSTR) : ∀ (h : directoryHistory),
    goodHist h → consecFrom (h.aud.verifiedSTR.epoch + 1) snaps = true →
    goodHist (insertRange h snaps) := by
  induction snaps with
  | nil => intro h hg _; exact hg
  | cons s rest ih =>
    intro h hg hc
    simp only [consecFrom, Bool.and_eq_true, beq_iff_eq] at hc
    obtain ⟨he, hrest⟩ := hc
    show goodHist (insertRange (updateVerifiedSTR h s) rest)
    apply ih
    · exact goodHist_update h s hg he
    · show consecFrom (s.epoch + 1) rest = true
      rw [he]
      exact hrest

/-- A range accepted by `AuditDirectory` carries consecutive epochs continuing
the verified latest. -/
theorem auditDirectory_consecFrom (c : Crypto) (strs : List (Option DirSTR)) :
    ∀ (a : AudState), AuditDirectory c a strs = true →
    consecFrom (a.verifiedSTR.epoch + 1) strs.reduceOption = true := by
  induction strs with
  | nil => intro a _; rfl
  | cons os rest ih =>
    intro a hA
    cases os with
    | none => simp [AuditDirectory] at hA
    | some s =>
      have hA2 : (checkSTR c a s && AuditDirectory c (a.update s) rest) = true := hA
      rw [Bool.and_eq_true] at hA2
      obtain ⟨hchk, hrest⟩ := hA2
      have he : s.epoch = a.verifiedSTR.epoch + 1 := by
        have hchk2 : ((s.epoch == a.verifiedSTR.epoch + 1) &&
            (s.prevSnapshotHash == c.hashSTR a.verifiedSTR) &&
            c.verifySig a.signKey s) = true := hchk
        rw [Bool.and_eq_true, Bool.and_eq_true, beq_iff_eq] at hchk2
        exact hchk2.1.1
      rw [List.reduceOption_cons_of_some]
      show ((s.epoch == a.verifiedSTR.epoch + 1) &&
        consecFrom (a.verifiedSTR.epoch + 1 + 1) rest.reduceOption) = true
      rw [Bool.and_eq_true, beq_iff_eq]
      refine ⟨he, ?_⟩
      have := ih (a.update s) hrest
      rw [show (a.update s).verifiedSTR.epoch = s.epoch from rfl, he] at this
      exact this

/-- Every record of a log reachable by `InitHistory` calls with
chain-contiguous inputs and arbitrary `AuditId` calls satisfies the store
invariant. -/
theorem reachGood_inv (c : Crypto) (l : ConiksAuditLog)
    (hr : ReachableGood c l) :
    ∀ id hh, l id = some hh → goodHist hh := by
  induction hr with
  | empty =>
    intro id hh hid
    exact absurd hid (by simp [emptyLog])
  | init l0 addr k snaps hprev hcons ih =>
    intro id hh hid
    cases snaps with
    | nil => exact ih id hh (by simpa [InitHistory] using hid)
    | cons s0 rest =>
      by_cases h0 : s0.epoch = 0
      · simp only [consecFrom, Bool.and_eq_true, beq_iff_eq] at hcons
        obtain ⟨_, hrest⟩ := hcons
        cases hl : l0 (ComputeDirectoryIdentity c s0) with
        | some hx => exact ih id hh (by simpa [InitHistory, h0, hl] using hid)
        | none =>
          simp only [InitHistory, h0, hl] at hid
          rw [if_neg (by simp [h0])] at hid
          by_cases hide : id = ComputeDirectoryIdentity c s0
          · have hid2 : some (insertRange (newDirectoryHistory addr k s0) rest) = some hh := by
              simpa [logSet, hide] using hid
            injection hid2 with hid3
            rw [← hid3]
            apply goodHist_insertRange
            · exact goodHist_new addr k s0 h0
            · show consecFrom (s0.epoch + 1) rest = true
              rw [h0]
              exact hrest
          · exact ih id hh (by simpa [logSet, hide] using hid)
      · exact ih id hh (by simpa [InitHistory, h0] using hid)
  | audit l0 id2 msg hprev ih =>
    intro id hh hid
    cases hl : l0 id2 with
    | none => exact ih id hh (by simpa [AuditId, hl] using hid)
    | some h1 =>
      cases hA : Audit c h1 msg with
      | error e => exact ih id hh (by simpa [AuditId, hl, hA] using hid)
      | ok h2 =>
        simp only [AuditId, hl, hA] at hid
        by_cases hide : id = id2
        · have hid2 : some h2 = some hh := by simpa [logSet, hide] using hid
          injection hid2 with hid3
          rw [← hid3]
          have hgood1 := ih id2 h1 hl
          unfold Audit at hA
          by_cases hv : (!msg.validate) = true
          · rw [if_pos hv] at hA
            exact absurd hA (by simp)
          · rw [if_neg hv] at hA
            by_cases hd : (!AuditDirectory c h1.aud msg.strs) = true
            · rw [if_pos hd] at hA
              exact absurd hA (by simp)
            · rw [if_neg hd] at hA
              injection hA with hA2
              rw [← hA2]
              apply goodHist_insertRange
              · exact hgood1
              · exact auditDirectory_consecFrom c msg.strs h1.aud
                  (by simpa using hd)
        · exact ih id hh (by simpa [logSet, hide] using hid)

/-- C3 (amended): after any sequence of `InitHistory` calls whose snapshot
lists carry consecutive epochs from 0 and arbitrary `AuditId` calls, every
stored history contains exactly the verified contiguous epochs
`0 .. verifiedSTR.epoch`, with the latest verified snapshot stored at the top
epoch. -/
theorem auditlog_invariant_good (c : Crypto) (l : ConiksAuditLog) (id : Nat)
    (hh : directoryHistory) (hr : ReachableGood c l) (hid : l id = some hh) :
    goodHist hh :=
  reachGood_inv c l hr id hh hid

/-- C3 witness: the test directory initialised from `[str0]` is reachable with
chain-contiguous inputs and its record satisfies the store invariant. -/
theorem auditlog_invariant_good_wit :
    ReachableGood cx l2 ∧ l2 id0 = some hist2 ∧ goodHist hist2 := by
  have hr : ReachableGood cx l2 :=
    ReachableGood.init emptyLog "addr-of-test-dir" 7 [str0]
      ReachableGood.empty (by decide)
  exact ⟨hr, rfl, auditlog_invariant_good cx l2 id0 hist2 hr rfl⟩

/-- C3 counterexample: the log `lbad` is reachable by a single `InitHistory`
call, yet its record's verified latest epoch is 5 while epoch 1 is absent from
the snapshots map — the stored epochs are not the contiguous set
`0 .. verifiedLatest.epoch`. -/
theorem invariant_gap_cex :
    Reachable cx lbad ∧
    latestEpochAt lbad id0 = some 5 ∧
    snapAt lbad id0 1 = none ∧
    snapAt lbad id0 5 = some str5 :=
  ⟨Reachable.init emptyLog "addr-of-test-dir" 7 [str0, str5] Reachable.empty,
    rfl, rfl, rfl⟩

/-- C6: for a known identity and `StartEpoch ≤ EndEpoch ≤` the latest verified
epoch, `GetObservedSTRs` returns the stored snapshots for every epoch of
`[StartEpoch, EndEpoch]` in order, of length `EndEpoch - StartEpoch + 1` (so
exactly one snapshot when the bounds coincide). -/
theorem getObservedSTRs_range (l : ConiksAuditLog) (req : AuditingRequest)
    (h : directoryHistory) (hh : l req.DirInitSTRHash = some h)
    (hse : req.StartEpoch ≤ req.EndEpoch)
    (hee : req.EndEpoch ≤ h.aud.verifiedSTR.epoch) :
    (GetObservedSTRs l req).2 =
      NewSTRHistoryRange ((List.range (req.EndEpoch + 1 - req.StartEpoch)).map
        (fun i => h.snapshots (req.StartEpoch + i))) ∧
    ((GetObservedSTRs l req).2).strs.length = req.EndEpoch - req.StartEpoch + 1 := by
  have hc : ¬(req.EndEpoch > h.aud.verifiedSTR.epoch ∨ req.StartEpoch > req.EndEpoch) := by
    omega
  constructor
  · simp [GetObservedSTRs, hh, hc]
  · simp only [GetObservedSTRs, hh, if_neg hc, NewSTRHistoryRange,
      List.length_map, List.length_range]
    omega

/-- C6 witness: querying the initialised test directory for the range
`[0, 0]` returns exactly the stored epoch-0 snapshot. -/
theorem getObservedSTRs_range_wit :
    (GetObservedSTRs l2 req00).2 =
      NewSTRHistoryRange ((List.range (req00.EndEpoch + 1 - req00.StartEpoch)).map
        (fun i => hist2.snapshots (req00.StartEpoch + i))) ∧
    ((GetObservedSTRs l2 req00).2).strs.length =
      req00.EndEpoch - req00.StartEpoch + 1 :=
  getObservedSTRs_range l2 req00 hist2 rfl (by decide) (by decide)

/-- C6 counterexample: on the log initialised from the gapped list
`[str0, str5]`, the well-bounded range query `[5, 5]` returns `str5`, a
snapshot that never passed the chain-admission check — the read reflects the
store, not chain admission. -/
theorem getObservedSTRs_unvalidated_cex :
    (GetObservedSTRs lbad (AuditingRequest.mk id0 5 5)).2 =
      NewSTRHistoryRange [some str5] ∧
    checkSTR cx (AudState.new 7 str0) str5 = false :=
  ⟨rfl, rfl⟩
